import Mathlib

/-
Verification of the candidate-reduction and ranking pipeline of the
ulauncher-spell extension (src/main.py and src/symspell_benchmark.py).

Python strings are modelled as lists of characters (List Char).  Machine
details that the claims do not touch (the GTK event plumbing, clipboard
actions, logging) are omitted; every function below is a direct shallow
embedding of the corresponding Python function, with external library
calls (ulauncher get_score, symspellpy lookup and word_segmentation,
Python re) taken as explicit function parameters or modelled fragments,
as documented at each definition.
-/

/-- A dictionary word together with the vocabulary (source list) it came
from.  Embeds the Word class of main.py (fields word and vocabulary);
get_search_name returns the word field. -/
structure Word where
  word : List Char
  vocabulary : List Char
deriving DecidableEq

/-- Python str.strip with no argument: remove whitespace from both ends. -/
def pyStrip (s : List Char) : List Char :=
  ((s.dropWhile Char.isWhitespace).reverse.dropWhile Char.isWhitespace).reverse

/-- load_words of main.py.  File access is modelled by the parameter
files, mapping a vocabulary name to the list of lines dict_file.readlines
returns for its file (each line still carrying its trailing newline, as
readlines does).  The Python body appends, for each vocabulary in order,
one Word per line with the line stripped. -/
def load_words (files : List Char → List (List Char))
    (vocabularies : List (List Char)) : List Word :=
  vocabularies.foldl
    (fun words vocabulary =>
      words ++ (files vocabulary).map
        (fun line => { word := pyStrip line, vocabulary := vocabulary }))
    []

/-- filter_words_by_length of main.py: with empty query return the input
unchanged; otherwise keep words whose text is truthy (non-empty) and whose
length lies in the window around the query length.  Natural subtraction
agrees with Python max(1, query_len - tol) since max 1 clips both. -/
def filter_words_by_length (words : List Word) (query : List Char)
    (length_tolerance : Nat := 2) : List Word :=
  if query = [] then words
  else
    let query_len := query.length
    let min_len := max 1 (query_len - length_tolerance)
    let max_len := query_len + length_tolerance
    words.filter fun w =>
      decide (w.word ≠ []) &&
        (decide (min_len ≤ w.word.length) && decide (w.word.length ≤ max_len))

/-- filter_words_by_first_char of main.py: with empty query return the
input unchanged; otherwise keep words whose text is non-empty and whose
first character, lower-cased, equals the lower-cased first character of
the query. -/
def filter_words_by_first_char (words : List Word) (query : List Char) :
    List Word :=
  match query with
  | [] => words
  | qc :: _ =>
    words.filter fun w =>
      match w.word with
      | [] => false
      | wc :: _ => decide (wc.toLower = qc.toLower)

/-- The characters Python re treats as metacharacters in a pattern
(outside character classes): on a query containing any of them,
re.search applies pattern semantics instead of matching literally. -/
def reMetachars : List Char :=
  ['.', '^', '$', '*', '+', '?', '\x7b', '\x7d', '[', ']', '\\', '|', '(', ')']

/-- Model of Python regular-expression matching for anchored patterns
built from literal characters and the metacharacter dot (which matches
any single character): such a pattern, anchored by a leading caret,
succeeds under re.search exactly when the rest of the pattern matches a
prefix of the text, which this function decides.  Patterns containing
any other metacharacter of reMetachars are outside the modelled
fragment, and no theorem below draws a conclusion that depends on the
value of this function at such a pattern: the counterexample query uses
only the dot, and the literal-prefix theorem restricts the query to
metacharacter-free strings, on which re.search agrees with the
literal-prefix reading. -/
def reMatchHere : List Char → List Char → Bool
  | [], _ => true
  | _ :: _, [] => false
  | p :: ps, c :: cs => (decide (p = '.') || decide (p = c)) && reMatchHere ps cs

/-- The regex branch of KeywordQueryEventListener.on_event (main.py lines
265-272): apply the first-character filter, then keep the words whose
text matches the query formatted, unescaped, into an anchored pattern. -/
def regexMatching (words : List Word) (query : List Char) : List Word :=
  (filter_words_by_first_char words query).filter fun w => reMatchHere query w.word

/-- Lookup in a Python dict represented as an insertion-ordered
association list: the key occurs at most once, so returning the first
match is the dict lookup. -/
def pyLookup {K V : Type} [DecidableEq K] : List (K × V) → K → Option V
  | [], _ => none
  | (k', v) :: rest, k => if k' = k then some v else pyLookup rest k

/-- Assignment d[k] = v on a Python dict: an existing key keeps its
position and gets the new value, a new key is appended at the end
(insertion order). -/
def pyDictSet {K V : Type} [DecidableEq K] : List (K × V) → K → V → List (K × V)
  | [], k, v => [(k, v)]
  | (k', v') :: rest, k, v =>
    if k' = k then (k, v) :: rest else (k', v') :: pyDictSet rest k v

/-- The cache insertion of on_event (main.py lines 288-293): when the
cache already holds at least 200 entries, delete the first key in
insertion order (del next(iter(cache))), then assign the new entry. -/
def cachePut {K V : Type} [DecidableEq K] (cache : List (K × V)) (k : K) (v : V) :
    List (K × V) :=
  pyDictSet (if 200 ≤ cache.length then cache.drop 1 else cache) k v

/-- An interaction with the result cache: an insertion on a miss, or a
read (the hit path of on_event reads the dict and performs no mutation). -/
inductive CacheOp (K V : Type) where
  | put (k : K) (v : V)
  | get (k : K)

/-- The insertions contained in a sequence of cache interactions. -/
def opsPuts {K V : Type} : List (CacheOp K V) → List (K × V)
  | [] => []
  | CacheOp.put k v :: rest => (k, v) :: opsPuts rest
  | CacheOp.get _ :: rest => opsPuts rest

/-- Run a sequence of insertions against the cache. -/
def runPuts {K V : Type} [DecidableEq K] (ps : List (K × V))
    (cache : List (K × V)) : List (K × V) :=
  ps.foldl (fun c kv => cachePut c kv.1 kv.2) cache

/-- Run a sequence of cache interactions: reads leave the dict unchanged,
as the hit path of on_event does. -/
def runOps {K V : Type} [DecidableEq K] : List (CacheOp K V) → List (K × V) → List (K × V)
  | [], c => c
  | CacheOp.put k v :: rest, c => runOps rest (cachePut c k v)
  | CacheOp.get _ :: rest, c => runOps rest c

/-- A suggestion returned by symspellpy lookup; only its term field is
read by the code under verification. -/
structure Suggestion where
  term : List Char
deriving DecidableEq

/-- The suggestion-to-Word conversion loop shared by
SymSpellMatcher.search (main.py lines 185-198) and the two search
methods of symspell_benchmark.py: walk the suggestions in order, keep
the first Word object stored for each term found in word_dict, skip
terms already seen, and stop once limit results are collected (Python
appends and then breaks when len reaches limit).  word_dict values are
built non-empty; an empty stored list (which would raise in Python) is
skipped. -/
def convertLoop (word_dict : List (List Char × List Word)) (limit : Nat) :
    List Suggestion → List (List Char) → List Word → List Word
  | [], _, acc => acc.reverse
  | s :: rest, seen, acc =>
    match pyLookup word_dict s.term with
    | some ws =>
      if s.term ∈ seen then convertLoop word_dict limit rest seen acc
      else
        match ws.head? with
        | some w =>
          if limit ≤ acc.length + 1 then (w :: acc).reverse
          else convertLoop word_dict limit rest (s.term :: seen) (w :: acc)
        | none => convertLoop word_dict limit rest seen acc
    | none => convertLoop word_dict limit rest seen acc

/-- State of SymSpellMatcher (main.py): the is_initialized flag (named
is_init here), the word_dict mapping a term to the Word objects sharing
that text, and the backing symspellpy lookup (external library),
modelled as a function from the query to the suggestion list.  The
max_edit_distance argument the code passes is absorbed into lookupFn. -/
structure SymMatcherState where
  is_init : Bool
  word_dict : List (List Char × List Word)
  lookupFn : List Char → List Suggestion

/-- SymSpellMatcher.search (main.py lines 172-198): return the empty
list when the matcher is not initialized or the query is falsy,
otherwise look the query up and convert the suggestions. -/
def symSearch (m : SymMatcherState) (query : List Char) (limit : Nat) : List Word :=
  if m.is_init = false ∨ query = [] then []
  else convertLoop m.word_dict limit (m.lookupFn query) [] []

/-- The word_dict construction of SymSpellMatcher.initialize (main.py
lines 152-164): words whose text is truthy and still non-empty after
strip are appended, in order, to the list stored under their text. -/
def symBuildWordDict (words : List Word) : List (List Char × List Word) :=
  words.foldl
    (fun d w =>
      if w.word ≠ [] ∧ pyStrip w.word ≠ [] then
        pyDictSet d w.word (((pyLookup d w.word).getD []) ++ [w])
      else d)
    []

/-- The lookup dictionary of rapidfuzz_search (main.py line 121), the
dict comprehension over the candidate words: a later Word with the same
text overwrites an earlier one. -/
def rfWordDict (words : List Word) : List (List Char × Word) :=
  words.foldl (fun d w => pyDictSet d w.word w) []

/-- First of two option values that is present. -/
def optOr {A : Type} (a b : Option A) : Option A :=
  match a with
  | some x => some x
  | none => b

/-- The last Word in the list whose text is s (specification-side
characterisation of the rapidfuzz_search dict comprehension). -/
def lastWith (s : List Char) : List Word → Option Word
  | [] => none
  | w :: ws => optOr (lastWith s ws) (if w.word = s then some w else none)

/-- The first Word in the list whose text is s and passes the
SymSpellMatcher.initialize validity test (specification-side
characterisation of the symspell word_dict head). -/
def firstWithSym (s : List Char) : List Word → Option Word
  | [] => none
  | w :: ws =>
    if (w.word ≠ [] ∧ pyStrip w.word ≠ []) ∧ w.word = s then some w
    else firstWithSym s ws

/-- The composition object symspellpy word_segmentation returns; the code
reads only corrected_string (field corrected here). -/
structure SegResult where
  segmented : List Char
  corrected : List Char
deriving DecidableEq

/-- SymSpellOptimizer.search_compound (symspell_benchmark.py lines
74-110).  word_segmentation is the external library call, modelled as
the parameter seg; a None result is falsy and a composition object is
truthy, hence the Option.  The lookup call is the parameter lk, and the
suggestions are converted by the shared loop. -/
def search_compound (seg : List Char → Option SegResult)
    (lk : List Char → List Suggestion)
    (word_dict : List (List Char × List Word)) (query : List Char)
    (limit : Nat) : List Word :=
  if query = [] then []
  else
    let suggestions :=
      match seg query with
      | some c => if c.corrected ≠ query then lk c.corrected else lk query
      | none => lk query
    convertLoop word_dict limit suggestions [] []

/-- Specification-side definition, following the words of the claim: the
string the compound variant looks up - the segmented form exactly when
segmentation produced a result whose corrected string differs from the
query, the original query in every other case. -/
def compound_lookup_target (seg : List Char → Option SegResult)
    (query : List Char) : List Char :=
  match seg query with
  | some c => if c.corrected ≠ query then c.corrected else query
  | none => query

/-- An entry of the CustomSortedList: a Word carrying the score the
ulauncher SortedList.append stored on it (the negated similarity score,
so that ascending key order is descending score order). -/
structure RItem where
  w : Word
  score : Int
deriving DecidableEq

/-- Python abs(a - b) on two lengths. -/
def absDiffN (a b : Nat) : Nat := ((a : Int) - (b : Int)).natAbs

/-- The sort key CustomSortedList installs (main.py lines 333-338): the
pair of the stored score and the absolute difference between the query
length and the word length. -/
def keyOf (query : List Char) (i : RItem) : Int × Nat :=
  (i.score, absDiffN query.length i.w.word.length)

/-- Python tuple comparison (less or equal) on such keys. -/
def keyLeB (a b : Int × Nat) : Bool :=
  decide (a.1 < b.1) || (decide (a.1 = b.1) && decide (a.2 ≤ b.2))

/-- SortedCollection.insert of ulauncher (the container CustomSortedList
uses): insertion keeping ascending key order, placing the new item after
existing items with an equal key (bisect_right). -/
def scInsert (query : List Char) (l : List RItem) (x : RItem) : List RItem :=
  match l with
  | [] => [x]
  | y :: ys =>
    if keyLeB (keyOf query y) (keyOf query x) then y :: scInsert query ys x
    else x :: y :: ys

/-- The trimming loop of ulauncher SortedList.append: while the
collection holds more than limit items, remove the last (worst-keyed)
one - that is, when over the limit keep only the first limit items. -/
def slTrim (limit : Nat) (l : List RItem) : List RItem :=
  if limit < l.length then l.take limit else l

/-- SortedList.append of ulauncher, as inherited by CustomSortedList
(main.py lines 333-338): score the word with get_score (the external
ulauncher scorer, parameter gs), discard it below min_score, otherwise
store it with the negated score and trim to the limit.  CustomSortedList
is constructed with min_score 65 and limit 9 at the call site. -/
def slAppend (gs : List Char → List Char → Int) (minScore : Int) (limit : Nat)
    (query : List Char) (items : List RItem) (w : Word) : List RItem :=
  let score := gs query w.word
  if minScore ≤ score then slTrim limit (scInsert query items { w := w, score := -score })
  else items

/-- SortedList.extend: append every word of the candidate list in order,
starting from the empty collection a fresh CustomSortedList holds. -/
def slExtend (gs : List Char → List Char → Int) (query : List Char)
    (minScore : Int) (limit : Nat) (words : List Word) : List RItem :=
  words.foldl (slAppend gs minScore limit query) []

/-- A rendered result row of on_event: the Word repr word/vocabulary is
split back into the displayed name and the language line of the
description (faithful for words containing no slash, as dictionary words
are). -/
structure ResultItemModel where
  name : List Char
  description : List Char
deriving DecidableEq

/-- The placeholder item on_event renders for an empty query. -/
def promptItem : ResultItemModel :=
  { name := "Type in the word...".toList, description := [] }

/-- The rendering loop of on_event (main.py lines 295-305): at most the
first nine results become items. -/
def renderItems (result_list : List Word) : List ResultItemModel :=
  (result_list.take 9).map fun w =>
    { name := w.word, description := "Language: ".toList ++ w.vocabulary }

/-- The extension preferences on_event reads: the matching method and
the vocabulary selector string. -/
structure Prefs where
  matching : List Char
  vocabulary : List Char

/-- The mutable extension state on_event touches: the loaded word list,
the result cache (insertion-ordered dict) and the symspell matcher. -/
structure ExtState where
  word_list : List Word
  search_cache : List ((List Char × List Char × List Char) × List Word)
  matcher : SymMatcherState

/-- KeywordQueryEventListener.on_event (main.py lines 250-316).  The
query argument is None or a string (Option); a falsy query (None or
empty) renders the prompt placeholder and touches nothing.  Otherwise:
cache hit returns the cached list unchanged; on a miss the strategy
selected by the matching preference runs - regex, symspell, or the
fuzzy path (modelled in its RAPIDFUZZ_AVAILABLE = False form, the
in-repository CustomSortedList fallback, with the external get_score as
the parameter gs) - and the result is inserted into the cache. -/
def on_event (gs : List Char → List Char → Int) (st : ExtState) (prefs : Prefs)
    (queryArg : Option (List Char)) : List ResultItemModel × ExtState :=
  match queryArg with
  | none => ([promptItem], st)
  | some query =>
    if query = [] then ([promptItem], st)
    else
      let cache_key := (query, prefs.matching, prefs.vocabulary)
      match pyLookup st.search_cache cache_key with
      | some result_list => (renderItems result_list, st)
      | none =>
        let result_list :=
          if prefs.matching = "regex".toList then regexMatching st.word_list query
          else if prefs.matching = "symspell".toList then symSearch st.matcher query 9
          else
            (slExtend gs query 65 9
              (filter_words_by_first_char
                (filter_words_by_length st.word_list query 2) query)).map RItem.w
        (renderItems result_list,
         { st with search_cache := cachePut st.search_cache cache_key result_list })

/-- Concrete words, states and helper functions used by the closed
instances below. -/
def catA : Word := { word := "cat".toList, vocabulary := "a".toList }

def catB : Word := { word := "cat".toList, vocabulary := "b".toList }

def theEnglish : Word := { word := "the".toList, vocabulary := "english".toList }

def gsConst90 : List Char → List Char → Int := fun _ _ => 90

def emptyMatcher : SymMatcherState :=
  { is_init := false, word_dict := [], lookupFn := fun _ => [] }

def c1Words : List Word := [{ word := "cat".toList, vocabulary := "english".toList }]

def c1DemoWords : List Word :=
  [{ word := "cat".toList, vocabulary := "english".toList },
   { word := "car".toList, vocabulary := "english".toList },
   { word := "cart".toList, vocabulary := "english".toList },
   { word := "dog".toList, vocabulary := "english".toList }]

def c2state : ExtState :=
  { word_list := [theEnglish], search_cache := [], matcher := emptyMatcher }

def symPrefs : Prefs :=
  { matching := "symspell".toList, vocabulary := "english".toList }

def c3state : ExtState :=
  { word_list := [], search_cache := [], matcher := emptyMatcher }

def regexPrefs : Prefs :=
  { matching := "regex".toList, vocabulary := "english".toList }

def c4files : List Char → List (List Char) :=
  fun _ => ["cat\n".toList, "\n".toList, "dog\n".toList]

def c5ops : List (CacheOp Nat Nat) := (List.range 201).map fun k => CacheOp.put k k

def wA : Word := { word := "aaaaa".toList, vocabulary := "x".toList }

def wB : Word := { word := "bbbbbbb".toList, vocabulary := "x".toList }

def wC : Word := { word := "ccccc".toList, vocabulary := "x".toList }

def q6 : List Char := "ddddd".toList

def gs6 : List Char → List Char → Int := fun _ w =>
  if w = wA.word then 90 else if w = wB.word then 90
  else if w = wC.word then 70 else 0

def c8seg : List Char → Option SegResult := fun q =>
  if q = "spellcheck".toList then
    some { segmented := "spell check".toList, corrected := "spell check".toList }
  else none

def c8lk : List Char → List Suggestion := fun q =>
  if q = "spell check".toList then [{ term := "spell".toList }]
  else [{ term := "fallback".toList }]

def c8wd : List (List Char × List Word) :=
  [("spell".toList, [{ word := "spell".toList, vocabulary := "english".toList }])]

/-- Claim C7: each of the two candidate filters is idempotent - applying
it twice with the same query equals applying it once, for every word
list, query and length tolerance. -/
theorem c7_filters_idempotent (words : List Word) (query : List Char) (t : Nat) :
    filter_words_by_length (filter_words_by_length words query t) query t
      = filter_words_by_length words query t
    ∧ filter_words_by_first_char (filter_words_by_first_char words query) query
      = filter_words_by_first_char words query := by
  constructor
  · unfold filter_words_by_length
    by_cases h : query = []
    · simp [h]
    · simp only [if_neg h, List.filter_filter]
      apply List.filter_congr
      intro w _
      cases hw : decide (w.word ≠ []) <;> simp [hw, Bool.and_assoc]
  · unfold filter_words_by_first_char
    cases query with
    | nil => rfl
    | cons qc qs =>
      dsimp only
      rw [List.filter_filter]
      apply List.filter_congr
      intro w _
      cases hw : w.word <;> simp

/-- Claim C10: for a non-empty query, every word surviving either filter
has non-empty text - each filter tests the text for truthiness before
inspecting characters, so both are total and exclude every empty-text
Word.  (Totality is witnessed by the filters being total functions of
the embedding.) -/
theorem c10_filters_exclude_empty_text (words : List Word) (query : List Char)
    (t : Nat) (h : query ≠ []) :
    (filter_words_by_length words query t).all (fun w => decide (w.word ≠ [])) = true
    ∧ (filter_words_by_first_char words query).all (fun w => decide (w.word ≠ [])) = true := by
  constructor
  · rw [List.all_eq_true]
    intro w hw
    unfold filter_words_by_length at hw
    rw [if_neg h] at hw
    simp only [List.mem_filter, Bool.and_eq_true, decide_eq_true_eq] at hw
    simpa using hw.2.1
  · rw [List.all_eq_true]
    intro w hw
    unfold filter_words_by_first_char at hw
    cases query with
    | nil => exact absurd rfl h
    | cons qc qs =>
      simp only [List.mem_filter] at hw
      cases hww : w.word with
      | nil => rw [hww] at hw; simp at hw
      | cons wc ws => simp [hww]

/-- Witness for C10 at a concrete input: query c, a word list holding an
empty-text word and the word cat. -/
theorem c10_witness :
    ("c".toList ≠ [])
    ∧ (filter_words_by_length [{ word := [], vocabulary := "e".toList },
        { word := "cat".toList, vocabulary := "english".toList }] ("c".toList) 2).all
        (fun w => decide (w.word ≠ [])) = true
    ∧ (filter_words_by_first_char [{ word := [], vocabulary := "e".toList },
        { word := "cat".toList, vocabulary := "english".toList }] ("c".toList)).all
        (fun w => decide (w.word ≠ [])) = true :=
  ⟨by decide,
   (c10_filters_exclude_empty_text _ _ 2 (by decide)).1,
   (c10_filters_exclude_empty_text _ _ 2 (by decide)).2⟩

/-- Counterexample for claim C4: a vocabulary file whose readlines gives
a cat line, a blank line and a dog line.  load_words does not skip the
blank line - it produces a Word with empty text for it - so the claimed
invariant that every element of the result has non-empty text fails. -/
theorem c4_counterexample :
    (load_words c4files ["english".toList]).map Word.word
        = ["cat".toList, [], "dog".toList]
    ∧ ¬ (∀ w ∈ load_words c4files ["english".toList], w.word ≠ []) := by
  constructor
  · decide
  · decide

/-- Helper: a foldl that only appends can be started from the empty
accumulator. -/
theorem load_words_acc (files : List Char → List (List Char)) :
    ∀ (vs : List (List Char)) (acc : List Word),
      vs.foldl
          (fun words vocabulary =>
            words ++ (files vocabulary).map
              (fun line => { word := pyStrip line, vocabulary := vocabulary }))
          acc
        = acc ++ load_words files vs := by
  intro vs
  induction vs with
  | nil => intro acc; simp [load_words]
  | cons v vs ih =>
    intro acc
    rw [load_words, List.foldl_cons, List.foldl_cons, ih, ih, List.nil_append,
      List.append_assoc]


/-- Helper: pyStrip written with the Mathlib right-drop. -/
theorem pyStrip_eq (s : List Char) :
    pyStrip s = List.rdropWhile Char.isWhitespace (s.dropWhile Char.isWhitespace) := rfl

/-- Helper: stripping leaves a left-stripped list left-stripped. -/
theorem dropWhile_rdropWhile_dropWhile (p : Char → Bool) (l : List Char) :
    (List.rdropWhile p (l.dropWhile p)).dropWhile p
      = List.rdropWhile p (l.dropWhile p) := by
  set t := l.dropWhile p with ht
  rcases hr : List.rdropWhile p t with _ | ⟨a, u⟩
  · rfl
  · have hpre : List.rdropWhile p t <+: t := List.rdropWhile_prefix p t
    rw [hr] at hpre
    obtain ⟨l1, hl1⟩ := hpre
    have hth : t = a :: (u ++ l1) := by rw [← hl1]; rfl
    have hna : p a = false := by
      have hts : t.dropWhile p = t := List.dropWhile_idempotent p l
      rw [hth] at hts
      rw [List.dropWhile_cons] at hts
      by_contra hc
      rw [eq_true_of_ne_false hc] at hts
      simp only [if_true] at hts
      have hle : (List.dropWhile p (u ++ l1)).length ≤ (u ++ l1).length :=
        (List.dropWhile_suffix p).sublist.length_le
      have := congrArg List.length hts
      simp only [List.length_cons] at this
      omega
    rw [List.dropWhile_cons_of_neg (by simp [hna])]

/-- Helper: stripping is idempotent. -/
theorem pyStrip_idem (s : List Char) : pyStrip (pyStrip s) = pyStrip s := by
  rw [pyStrip_eq, pyStrip_eq, dropWhile_rdropWhile_dropWhile,
    List.rdropWhile_idempotent]

/-- Claim C4 amended: load_words produces one Word per line - blank
lines included, yielding Words with empty text, so the result may
contain empty-text elements - with whitespace stripped from both ends of
each line (hence every produced text is already stripped). -/
theorem c4_amended (files : List Char → List (List Char)) :
    (load_words files [] = []
      ∧ ∀ (v : List Char) (vs : List (List Char)),
          load_words files (v :: vs)
            = ((files v).map fun line => { word := pyStrip line, vocabulary := v })
                ++ load_words files vs)
    ∧ ∀ (vs : List (List Char)), ∀ w ∈ load_words files vs, pyStrip w.word = w.word := by
  have hcons : ∀ (v : List Char) (vs : List (List Char)),
      load_words files (v :: vs)
        = ((files v).map fun line => { word := pyStrip line, vocabulary := v })
            ++ load_words files vs := by
    intro v vs
    rw [load_words, List.foldl_cons, load_words_acc, List.nil_append]
  refine ⟨⟨rfl, hcons⟩, ?_⟩
  intro vs
  induction vs with
  | nil => intro w hw; simp [load_words] at hw
  | cons v vs ih =>
    intro w hw
    rw [hcons] at hw
    rcases List.mem_append.mp hw with hl | hr
    · obtain ⟨line, _, rfl⟩ := List.mem_map.mp hl
      exact pyStrip_idem line
    · exact ih w hr

/-- Witness for the amended C4 at the concrete three-line file: the cons
equation at vocabulary english, and the stripped-text fact at the cat
word the load produced. -/
theorem c4_witness :
    load_words c4files ["english".toList]
        = ((c4files ("english".toList)).map
            fun line => { word := pyStrip line, vocabulary := "english".toList })
          ++ load_words c4files []
    ∧ pyStrip ({ word := "cat".toList, vocabulary := "english".toList } : Word).word
        = ({ word := "cat".toList, vocabulary := "english".toList } : Word).word :=
  ⟨(c4_amended c4files).1.2 ("english".toList) [],
   (c4_amended c4files).2 ["english".toList]
     { word := "cat".toList, vocabulary := "english".toList } (by decide)⟩

/-- Counterexample for claim C1: with candidate cat and query c.t the
regex branch keeps cat (the unescaped dot matches the character a), yet
cat does not start with the literal string c.t - so the strategy does
not return exactly the literal-prefix candidates. -/
theorem c1_counterexample :
    regexMatching c1Words ("c.t".toList)
        = [{ word := "cat".toList, vocabulary := "english".toList }]
    ∧ ("c.t".toList).isPrefixOf ("cat".toList) = false
    ∧ regexMatching c1Words ("c.t".toList)
        ≠ c1Words.filter fun w => ("c.t".toList).isPrefixOf w.word := by
  refine ⟨by decide, by decide, by decide⟩

/-- Helper: on dot-free patterns the modelled regex match is the literal
prefix test. -/
theorem reMatchHere_eq_isPrefixOf :
    ∀ (p t : List Char), '.' ∉ p → reMatchHere p t = p.isPrefixOf t := by
  intro p
  induction p with
  | nil => intro t _; cases t <;> rfl
  | cons pc ps ih =>
    intro t hp
    have hpc : pc ≠ '.' := by
      intro h; exact hp (h ▸ List.mem_cons_self pc ps)
    have hps : '.' ∉ ps := fun h => hp (List.mem_cons_of_mem pc h)
    cases t with
    | nil => rfl
    | cons tc ts =>
      rw [reMatchHere, List.isPrefixOf, ih ts hps]
      have : decide (pc = '.') = false := by
        simp [hpc]
      rw [this, Bool.false_or]
      by_cases h : pc = tc
      · subst h; simp [BEq.beq]
      · simp [h, BEq.beq]

/-- Claim C1 amended: the regex branch treats the query as an anchored
regular expression, not literally; for queries free of every regex
metacharacter (none of the characters of reMetachars occurs in the
query, so re.search matches the pattern literally and the model is
exact) it does return exactly the candidates whose text starts with the
query, preserving original order. -/
theorem c1_literal_for_plain_queries (words : List Word) (query : List Char)
    (hmeta : ∀ c ∈ query, c ∉ reMetachars) :
    regexMatching words query = words.filter fun w => query.isPrefixOf w.word := by
  have h : '.' ∉ query := fun hmem => hmeta '.' hmem (by decide)
  unfold regexMatching filter_words_by_first_char
  cases query with
  | nil =>
    simp [reMatchHere, List.isPrefixOf]
  | cons qc qs =>
    dsimp only
    rw [List.filter_filter]
    apply List.filter_congr
    intro w _
    have hqc : qc ≠ '.' := by
      intro hh; exact h (hh ▸ List.mem_cons_self qc qs)
    have hqs : '.' ∉ qs := fun hh => h (List.mem_cons_of_mem qc hh)
    cases hww : w.word with
    | nil => simp [List.isPrefixOf]
    | cons wc ws =>
      rw [List.isPrefixOf, reMatchHere, reMatchHere_eq_isPrefixOf qs ws hqs]
      have hdot : decide (qc = '.') = false := by simp [hqc]
      rw [hdot, Bool.false_or]
      by_cases hw : wc = qc
      · subst hw
        simp [BEq.beq]
      · have h0 : qc ≠ wc := fun hh => hw hh.symm
        have h1 : decide (qc = wc) = false := by simp [h0]
        have h2 : (qc == wc) = false := by simp [BEq.beq, h0]
        rw [h1, h2]
        simp

/-- Witness for the amended C1 at the end-to-end example of the
specification: vocabulary cat, car, cart, dog and the query ca, which
contains no regex metacharacter. -/
theorem c1_witness :
    (∀ c ∈ "ca".toList, c ∉ reMetachars)
    ∧ regexMatching c1DemoWords ("ca".toList)
        = c1DemoWords.filter fun w => ("ca".toList).isPrefixOf w.word :=
  ⟨by decide, c1_literal_for_plain_queries c1DemoWords ("ca".toList) (by decide)⟩

/-- Claim C8: for every non-empty query the compound variant looks up
the segmented form exactly when word_segmentation produced a result
whose corrected string differs from the query, and the original query in
every other case (no result, or a corrected string equal to the query).
The empty query short-circuits to the empty result before any lookup,
per the common empty-query rule. -/
theorem c8_compound_segmentation_choice
    (seg : List Char → Option SegResult) (lk : List Char → List Suggestion)
    (word_dict : List (List Char × List Word)) (query : List Char) (limit : Nat)
    (h : query ≠ []) :
    search_compound seg lk word_dict query limit
        = convertLoop word_dict limit (lk (compound_lookup_target seg query)) [] []
    ∧ (∀ c, seg query = some c → c.corrected ≠ query →
        compound_lookup_target seg query = c.corrected)
    ∧ (∀ c, seg query = some c → c.corrected = query →
        compound_lookup_target seg query = query)
    ∧ (seg query = none → compound_lookup_target seg query = query) := by
  unfold search_compound compound_lookup_target
  rw [if_neg h]
  refine ⟨?_, ?_, ?_, ?_⟩
  · cases hseg : seg query with
    | none => rfl
    | some c =>
      by_cases hc : c.corrected = query
      · simp [hc]
      · simp [hc]
  · intro c hseg hc
    rw [hseg]
    simp [hc]
  · intro c hseg hc
    rw [hseg]
    simp [hc]
  · intro hseg
    rw [hseg]

/-- Witness for C8 at a concrete segmentation: query spellcheck is
segmented to the differing corrected string spell check, so the lookup
target is the segmented form and search_compound converts the
suggestions of that lookup. -/
theorem c8_witness :
    ("spellcheck".toList ≠ [])
    ∧ search_compound c8seg c8lk c8wd ("spellcheck".toList) 9
        = convertLoop c8wd 9 (c8lk (compound_lookup_target c8seg ("spellcheck".toList))) [] []
    ∧ compound_lookup_target c8seg ("spellcheck".toList) = "spell check".toList :=
  ⟨by decide,
   (c8_compound_segmentation_choice c8seg c8lk c8wd ("spellcheck".toList) 9 (by decide)).1,
   (c8_compound_segmentation_choice c8seg c8lk c8wd ("spellcheck".toList) 9 (by decide)).2.1
     { segmented := "spell check".toList, corrected := "spell check".toList }
     (by decide) (by decide)⟩

/-- Helper: lookup after assignment. -/
theorem pyLookup_pyDictSet {K V : Type} [DecidableEq K]
    (d : List (K × V)) (k s : K) (v : V) :
    pyLookup (pyDictSet d k v) s = if k = s then some v else pyLookup d s := by
  induction d with
  | nil => rfl
  | cons p rest ih =>
    obtain ⟨k', v'⟩ := p
    by_cases h1 : k' = k
    · subst h1
      by_cases h2 : k' = s <;> simp [pyDictSet, pyLookup, h2]
    · by_cases h2 : k' = s
      · subst h2
        have h3 : ¬ k = k' := fun hh => h1 hh.symm
        simp [pyDictSet, pyLookup, h1, h3]
      · simp [pyDictSet, pyLookup, h1, h2, ih]

/-- Helper: optOr with an absent right side. -/
theorem optOr_none {A : Type} (a : Option A) : optOr a none = a := by
  cases a <;> rfl

/-- Helper: the rapidfuzz dict comprehension, folded from any dict,
looks up to the last matching word, falling back to the initial dict. -/
theorem rfWordDict_fold (s : List Char) :
    ∀ (ws : List Word) (d : List (List Char × Word)),
      pyLookup (ws.foldl (fun d w => pyDictSet d w.word w) d) s
        = optOr (lastWith s ws) (pyLookup d s) := by
  intro ws
  induction ws with
  | nil => intro d; rfl
  | cons w ws ih =>
    intro d
    rw [List.foldl_cons, ih, lastWith]
    cases hl : lastWith s ws with
    | some x => rfl
    | none =>
      rw [optOr, optOr, pyLookup_pyDictSet]
      by_cases h : w.word = s
      · rw [if_pos h, if_pos h]
        rfl
      · rw [if_neg h, if_neg h]
        rfl

/-- Helper: the symspell word_dict build, folded from any dict: the head
of the stored list under a key is the first valid word with that text,
unless the initial dict already stores a non-empty list there. -/
theorem symBuildWordDict_fold (s : List Char) :
    ∀ (ws : List Word) (d : List (List Char × List Word)),
      (pyLookup
          (ws.foldl
            (fun d w =>
              if w.word ≠ [] ∧ pyStrip w.word ≠ [] then
                pyDictSet d w.word (((pyLookup d w.word).getD []) ++ [w])
              else d)
            d) s).bind List.head?
        = optOr ((pyLookup d s).bind List.head?) (firstWithSym s ws) := by
  intro ws
  induction ws with
  | nil =>
    intro d
    rw [List.foldl_nil, firstWithSym, optOr_none]
  | cons w ws ih =>
    intro d
    rw [List.foldl_cons, ih]
    by_cases hv : w.word ≠ [] ∧ pyStrip w.word ≠ []
    · rw [if_pos hv]
      by_cases h : w.word = s
      · subst h
        rw [pyLookup_pyDictSet, if_pos rfl, firstWithSym, if_pos ⟨hv, rfl⟩]
        cases hd : pyLookup d w.word with
        | none => rfl
        | some old =>
          cases old with
          | nil => rfl
          | cons x xs => rfl
      · rw [pyLookup_pyDictSet, if_neg h, firstWithSym, if_neg (fun hh => h hh.2)]
    · rw [if_neg hv, firstWithSym, if_neg (fun hh => hv hh.1)]

/-- Counterexample for claim C9: the list cat/a, cat/b, cat/a holds two
Words with identical text and different source lists, yet the rapidfuzz
dictionary maps cat to its last occurrence (source a) and the symspell
word_dict head is its first occurrence (source a) - the two strategies
report the same source-list label here, not different ones. -/
theorem c9_counterexample :
    (catA.word = catB.word ∧ catA.vocabulary ≠ catB.vocabulary)
    ∧ pyLookup (rfWordDict [catA, catB, catA]) ("cat".toList) = some catA
    ∧ (pyLookup (symBuildWordDict [catA, catB, catA]) ("cat".toList)).bind List.head?
        = some catA := by
  refine ⟨by decide, by decide, by decide⟩

/-- Claim C9 amended: the rapidfuzz lookup dictionary maps a text to the
last Word carrying it and the symspell strategy stores the first valid
one at the head, so the reported source-list labels differ exactly when
the first and last occurrence of the text come from different source
lists - in particular for a text occurring exactly twice under two
different lists, but not for every list containing such a pair. -/
theorem c9_last_versus_first :
    (∀ (ws : List Word) (s : List Char),
        pyLookup (rfWordDict ws) s = lastWith s ws)
    ∧ (∀ (ws : List Word) (s : List Char),
        (pyLookup (symBuildWordDict ws) s).bind List.head? = firstWithSym s ws)
    ∧ (∀ (w1 w2 : Word), w1.word = w2.word → w1.word ≠ [] → pyStrip w1.word ≠ [] →
        pyLookup (rfWordDict [w1, w2]) w1.word = some w2
        ∧ (pyLookup (symBuildWordDict [w1, w2]) w1.word).bind List.head? = some w1) := by
  have hrf : ∀ (ws : List Word) (s : List Char),
      pyLookup (rfWordDict ws) s = lastWith s ws := by
    intro ws s
    rw [rfWordDict, rfWordDict_fold]
    exact optOr_none _
  have hsym : ∀ (ws : List Word) (s : List Char),
      (pyLookup (symBuildWordDict ws) s).bind List.head? = firstWithSym s ws := by
    intro ws s
    rw [symBuildWordDict, symBuildWordDict_fold]
    rfl
  refine ⟨hrf, hsym, ?_⟩
  intro w1 w2 heq hne hst
  constructor
  · rw [hrf, lastWith, lastWith, lastWith]
    rw [if_pos heq.symm]
    rfl
  · rw [hsym, firstWithSym, if_pos ⟨⟨hne, hst⟩, rfl⟩]

/-- Witness for the amended C9 at the two-element list cat/a, cat/b: the
rapidfuzz dictionary yields cat/b, the symspell head yields cat/a. -/
theorem c9_witness :
    pyLookup (rfWordDict [catA, catB]) catA.word = some catB
    ∧ (pyLookup (symBuildWordDict [catA, catB]) catA.word).bind List.head? = some catA :=
  c9_last_versus_first.2.2 catA catB (by decide) (by decide) (by decide)

/-- Helper: assignment of a fresh key appends. -/
theorem pyDictSet_fresh {K V : Type} [DecidableEq K]
    (d : List (K × V)) (k : K) (v : V) (h : pyLookup d k = none) :
    pyDictSet d k v = d ++ [(k, v)] := by
  induction d with
  | nil => rfl
  | cons p rest ih =>
    obtain ⟨k', v'⟩ := p
    rw [pyLookup] at h
    by_cases h1 : k' = k
    · rw [if_pos h1] at h
      exact absurd h (by simp)
    · rw [if_neg h1] at h
      rw [pyDictSet, if_neg h1, ih h, List.cons_append]

/-- Helper: a key absent from a dict is absent from its tail. -/
theorem pyLookup_drop_one {K V : Type} [DecidableEq K]
    (d : List (K × V)) (k : K) (h : pyLookup d k = none) :
    pyLookup (d.drop 1) k = none := by
  cases d with
  | nil => rfl
  | cons p rest =>
    obtain ⟨k', v'⟩ := p
    rw [pyLookup] at h
    by_cases h1 : k' = k
    · rw [if_pos h1] at h
      exact absurd h (by simp)
    · rw [if_neg h1] at h
      exact h

/-- Helper: absence from an append. -/
theorem pyLookup_append_none {K V : Type} [DecidableEq K]
    (a b : List (K × V)) (k : K) (ha : pyLookup a k = none)
    (hb : pyLookup b k = none) : pyLookup (a ++ b) k = none := by
  induction a with
  | nil => exact hb
  | cons p rest ih =>
    obtain ⟨k', v'⟩ := p
    rw [pyLookup] at ha
    rw [List.cons_append, pyLookup]
    by_cases h1 : k' = k
    · rw [if_pos h1] at ha
      exact absurd ha (by simp)
    · rw [if_neg h1] at ha ⊢
      exact ih ha

/-- Helper: a key absent from a list of pairings is not looked up. -/
theorem pyLookup_map_none {K V : Type} [DecidableEq K]
    (f : K → V) (l : List K) (k : K) (h : k ∉ l) :
    pyLookup (l.map fun x => (x, f x)) k = none := by
  induction l with
  | nil => rfl
  | cons a rest ih =>
    rw [List.map_cons, pyLookup]
    have ha : a ≠ k := fun hh => h (hh ▸ List.mem_cons_self a rest)
    rw [if_neg ha]
    exact ih (fun hh => h (List.mem_cons_of_mem a hh))

/-- Helper: a present key of a pairing list looks up to its image. -/
theorem pyLookup_map_mem {K V : Type} [DecidableEq K]
    (f : K → V) (l : List K) (k : K) (h : k ∈ l) :
    pyLookup (l.map fun x => (x, f x)) k = some (f k) := by
  induction l with
  | nil => exact absurd h (List.not_mem_nil k)
  | cons a rest ih =>
    rw [List.map_cons, pyLookup]
    by_cases ha : a = k
    · subst ha
      rw [if_pos rfl]
    · rw [if_neg ha]
      exact ih ((List.mem_cons.mp h).resolve_left (fun hh => ha hh.symm))

/-- Helper: running the insertions of a fresh, duplicate-free batch
against a cache of at most 200 entries keeps, of the concatenation, the
newest 200 entries - the over-capacity front entries are dropped first,
in insertion order. -/
theorem runPuts_fresh {K V : Type} [DecidableEq K] :
    ∀ (ps : List (K × V)) (c : List (K × V)),
      (ps.map Prod.fst).Nodup → (∀ p ∈ ps, pyLookup c p.1 = none) →
      c.length ≤ 200 →
      runPuts ps c = (c ++ ps).drop (c.length + ps.length - 200) := by
  intro ps
  induction ps with
  | nil =>
    intro c _ _ hlen
    rw [runPuts, List.foldl_nil, List.append_nil]
    have h0 : c.length + List.length ([] : List (K × V)) - 200 = 0 := by
      rw [List.length_nil]
      omega
    rw [h0, List.drop_zero]
  | cons p ps ih =>
    intro c hnd hfresh hlen
    rw [List.map_cons, List.nodup_cons] at hnd
    have hfp : pyLookup c p.1 = none := hfresh p (List.mem_cons_self p ps)
    have hne : ∀ q ∈ ps, q.1 ≠ p.1 := by
      intro q hq hh
      exact hnd.1 (hh ▸ List.mem_map_of_mem Prod.fst hq)
    rw [runPuts, List.foldl_cons]
    by_cases h200 : 200 ≤ c.length
    · have hc200 : c.length = 200 := by omega
      cases c with
      | nil =>
        rw [List.length_nil] at hc200
        omega
      | cons x t =>
        have ht : t.length = 199 := by
          rw [List.length_cons] at hc200
          omega
        have hstep : cachePut (x :: t) p.1 p.2 = t ++ [p] := by
          rw [cachePut, if_pos h200]
          exact pyDictSet_fresh t p.1 p.2 (pyLookup_drop_one (x :: t) p.1 hfp)
        rw [hstep]
        have hfresh1 : ∀ q ∈ ps, pyLookup (t ++ [p]) q.1 = none := by
          intro q hq
          have h1 : pyLookup t q.1 = none :=
            pyLookup_drop_one (x :: t) q.1 (hfresh q (List.mem_cons_of_mem p hq))
          refine pyLookup_append_none _ _ _ h1 ?_
          rw [pyLookup, if_neg (fun hh => hne q hq hh.symm)]
          rfl
        have hlen1 : (t ++ [p]).length ≤ 200 := by
          rw [List.length_append, List.length_singleton]
          omega
        have hrec := ih (t ++ [p]) hnd.2 hfresh1 hlen1
        rw [runPuts] at hrec
        rw [hrec]
        have hidx : (t ++ [p]).length + ps.length - 200 = ps.length := by
          rw [List.length_append, List.length_singleton]
          omega
        have hidx2 : (x :: t).length + (p :: ps).length - 200 = ps.length + 1 := by
          rw [List.length_cons, List.length_cons]
          omega
        rw [hidx, hidx2, List.append_assoc, List.singleton_append,
          List.cons_append, List.drop_succ_cons]
    · have hstep : cachePut c p.1 p.2 = c ++ [p] := by
        rw [cachePut, if_neg h200]
        exact pyDictSet_fresh c p.1 p.2 hfp
      rw [hstep]
      have hfresh1 : ∀ q ∈ ps, pyLookup (c ++ [p]) q.1 = none := by
        intro q hq
        refine pyLookup_append_none _ _ _ (hfresh q (List.mem_cons_of_mem p hq)) ?_
        rw [pyLookup, if_neg (fun hh => hne q hq hh.symm)]
        rfl
      have hlen1 : (c ++ [p]).length ≤ 200 := by
        rw [List.length_append, List.length_singleton]
        omega
      have hrec := ih (c ++ [p]) hnd.2 hfresh1 hlen1
      rw [runPuts] at hrec
      rw [hrec]
      have harith : (c ++ [p]).length + ps.length - 200
          = c.length + (p :: ps).length - 200 := by
        rw [List.length_append, List.length_singleton, List.length_cons]
        omega
      rw [harith, List.append_assoc, List.singleton_append]

/-- Helper: assignment grows a dict by at most one entry. -/
theorem pyDictSet_length {K V : Type} [DecidableEq K]
    (d : List (K × V)) (k : K) (v : V) :
    (pyDictSet d k v).length ≤ d.length + 1 := by
  induction d with
  | nil => simp [pyDictSet]
  | cons p rest ih =>
    obtain ⟨k', v'⟩ := p
    rw [pyDictSet]
    by_cases h1 : k' = k
    · rw [if_pos h1]
      simp
    · rw [if_neg h1, List.length_cons, List.length_cons]
      omega

/-- Helper: a cache insertion preserves the 200-entry capacity bound. -/
theorem cachePut_length {K V : Type} [DecidableEq K]
    (c : List (K × V)) (k : K) (v : V) (h : c.length ≤ 200) :
    (cachePut c k v).length ≤ 200 := by
  rw [cachePut]
  by_cases h200 : 200 ≤ c.length
  · rw [if_pos h200]
    have h1 := pyDictSet_length (c.drop 1) k v
    rw [List.length_drop] at h1
    omega
  · rw [if_neg h200]
    have h1 := pyDictSet_length c k v
    omega

/-- Helper: reads do not change the cache, so a run of interactions is
the run of its insertions. -/
theorem runOps_eq_runPuts {K V : Type} [DecidableEq K] :
    ∀ (ops : List (CacheOp K V)) (c : List (K × V)),
      runOps ops c = runPuts (opsPuts ops) c := by
  intro ops
  induction ops with
  | nil => intro c; rfl
  | cons op rest ih =>
    intro c
    cases op with
    | put k v =>
      rw [runOps, opsPuts, runPuts, List.foldl_cons, ih]
      rfl
    | get k => rw [runOps, opsPuts, ih]

/-- Claim C5: the result cache of on_event never exceeds 200 entries -
any run of interactions from a within-capacity cache stays within
capacity - and eviction is strict first-in-first-out by insertion order:
after a run whose insertions are 201 distinct keys in order, the first
key misses and the last key hits, no matter which reads happened in
between (reads never mutate the dict). -/
theorem c5_cache_capacity_and_fifo :
    (∀ (K V : Type) (_ : DecidableEq K) (ops : List (CacheOp K V)) (c : List (K × V)),
        c.length ≤ 200 → (runOps ops c).length ≤ 200)
    ∧ (∀ (K V : Type) (_ : DecidableEq K) (f : K → V) (keys : List K)
          (ops : List (CacheOp K V)) (k1 kn : K),
        keys.Nodup → keys.length = 201 →
        opsPuts ops = keys.map (fun k => (k, f k)) →
        keys.head? = some k1 → keys.getLast? = some kn →
        pyLookup (runOps ops []) k1 = none
        ∧ pyLookup (runOps ops []) kn = some (f kn)) := by
  constructor
  · intro K V hdec ops
    induction ops with
    | nil => intro c h; exact h
    | cons op rest ih =>
      intro c h
      cases op with
      | put k v =>
        rw [runOps]
        exact ih _ (cachePut_length c k v h)
      | get k =>
        rw [runOps]
        exact ih c h
  · intro K V hdec f keys ops k1 kn hnd hlen hops hh hl
    rw [runOps_eq_runPuts, hops]
    have hcomp : ∀ (l : List K), (l.map fun k => (k, f k)).map Prod.fst = l := by
      intro l
      induction l with
      | nil => rfl
      | cons a r ih => rw [List.map_cons, List.map_cons, ih]
    have hmapnd : ((keys.map fun k => (k, f k)).map Prod.fst).Nodup := by
      rw [hcomp]
      exact hnd
    have hfresh : ∀ p ∈ keys.map fun k => (k, f k), pyLookup ([] : List (K × V)) p.1 = none := by
      intro p _
      rfl
    have hform := runPuts_fresh (keys.map fun k => (k, f k)) [] hmapnd hfresh (by simp)
    rw [hform]
    cases keys with
    | nil => simp at hh
    | cons a rest =>
      have ha : a = k1 := by
        rw [List.head?_cons] at hh
        exact Option.some.inj hh
      subst ha
      have hrl : rest.length = 200 := by
        rw [List.length_cons] at hlen
        omega
      have hidx : List.length ([] : List (K × V))
          + ((a :: rest).map fun k => (k, f k)).length - 200 = 1 := by
        rw [List.length_nil, List.length_map, List.length_cons]
        omega
      rw [hidx, List.nil_append, List.map_cons, List.drop_succ_cons, List.drop_zero]
      have hanr : a ∉ rest := (List.nodup_cons.mp hnd).1
      have hrestnd : rest.Nodup := (List.nodup_cons.mp hnd).2
      constructor
      · exact pyLookup_map_none f rest a hanr
      · have hknrest : kn ∈ rest := by
          cases rest with
          | nil =>
            rw [List.length_nil] at hrl
            omega
          | cons b rs =>
            rw [List.getLast?_cons_cons] at hl
            have hmem : kn ∈ (b :: rs).getLast? := by
              rw [Option.mem_def]
              exact hl
            obtain ⟨hne0, hkn⟩ := List.mem_getLast?_eq_getLast hmem
            rw [hkn]
            exact List.getLast_mem hne0
        exact pyLookup_map_mem f rest kn hknrest

/-- Helper: the insertions of a pure put sequence. -/
theorem opsPuts_map_put {K V : Type} (f : K → V) (l : List K) :
    opsPuts (l.map fun k => CacheOp.put k (f k)) = l.map fun k => (k, f k) := by
  induction l with
  | nil => rfl
  | cons a r ih => rw [List.map_cons, List.map_cons, opsPuts, ih]

/-- Witness for C5 at the concrete run inserting the 201 distinct keys
0, 1, ..., 200: key 0 misses afterwards and key 200 hits. -/
theorem c5_witness :
    pyLookup (runOps c5ops ([] : List (Nat × Nat))) 0 = none
    ∧ pyLookup (runOps c5ops ([] : List (Nat × Nat))) 200 = some 200 :=
  c5_cache_capacity_and_fifo.2 Nat Nat inferInstance (fun k => k) (List.range 201)
    c5ops 0 200 (List.nodup_range 201) (by simp) (opsPuts_map_put (fun k => k) (List.range 201))
    (by decide) (by decide)

/-- Helper: the boolean tuple order as a proposition. -/
theorem keyLeB_iff (a b : Int × Nat) :
    keyLeB a b = true ↔ (a.1 < b.1 ∨ (a.1 = b.1 ∧ a.2 ≤ b.2)) := by
  rw [keyLeB]
  simp

/-- Helper: the tuple order is total. -/
theorem keyLeB_total (a b : Int × Nat) (h : keyLeB a b = false) :
    keyLeB b a = true := by
  rw [Bool.eq_false_iff, ne_eq, keyLeB_iff] at h
  rw [keyLeB_iff]
  omega

/-- Helper: the tuple order is transitive. -/
theorem keyLeB_trans (a b c : Int × Nat) (h1 : keyLeB a b = true)
    (h2 : keyLeB b c = true) : keyLeB a c = true := by
  rw [keyLeB_iff] at h1 h2 ⊢
  omega

/-- Helper: membership in the sorted insertion. -/
theorem mem_scInsert (query : List Char) (l : List RItem) (x z : RItem) :
    z ∈ scInsert query l x ↔ z = x ∨ z ∈ l := by
  induction l with
  | nil => simp [scInsert]
  | cons y ys ih =>
    rw [scInsert]
    by_cases h : keyLeB (keyOf query y) (keyOf query x) = true
    · rw [if_pos h]
      simp only [List.mem_cons, ih]
      tauto
    · rw [if_neg h]
      simp only [List.mem_cons]

/-- Helper: sorted insertion preserves ascending key order. -/
theorem pairwise_scInsert (query : List Char) (x : RItem) :
    ∀ (l : List RItem),
      l.Pairwise (fun a b => keyLeB (keyOf query a) (keyOf query b) = true) →
      (scInsert query l x).Pairwise
        (fun a b => keyLeB (keyOf query a) (keyOf query b) = true) := by
  intro l
  induction l with
  | nil => intro _; simp [scInsert]
  | cons y ys ih =>
    intro hp
    rw [List.pairwise_cons] at hp
    rw [scInsert]
    by_cases h : keyLeB (keyOf query y) (keyOf query x) = true
    · rw [if_pos h, List.pairwise_cons]
      constructor
      · intro z hz
        rcases (mem_scInsert query ys x z).mp hz with rfl | hzys
        · exact h
        · exact hp.1 z hzys
      · exact ih hp.2
    · rw [if_neg h, List.pairwise_cons]
      have hxy : keyLeB (keyOf query x) (keyOf query y) = true :=
        keyLeB_total _ _ (Bool.eq_false_iff.mpr h)
      constructor
      · intro z hz
        rcases List.mem_cons.mp hz with rfl | hzys
        · exact hxy
        · exact keyLeB_trans _ _ _ hxy (hp.1 z hzys)
      · rw [List.pairwise_cons]
        exact ⟨hp.1, hp.2⟩

/-- Helper: trimming is a sublist. -/
theorem slTrim_sublist (limit : Nat) (l : List RItem) :
    List.Sublist (slTrim limit l) l := by
  rw [slTrim]
  by_cases h : limit < l.length
  · rw [if_pos h]
    exact List.take_sublist limit l
  · rw [if_neg h]

/-- Helper: every item the extend loop accumulates is sorted by the
CustomSortedList key and carries the negated score of its word. -/
theorem slExtend_aux (gs : List Char → List Char → Int) (query : List Char)
    (minScore : Int) (limit : Nat) :
    ∀ (ws : List Word) (init : List RItem),
      init.Pairwise (fun a b => keyLeB (keyOf query a) (keyOf query b) = true) →
      (∀ i ∈ init, i.score = -(gs query i.w.word)) →
      (ws.foldl (slAppend gs minScore limit query) init).Pairwise
          (fun a b => keyLeB (keyOf query a) (keyOf query b) = true)
        ∧ ∀ i ∈ ws.foldl (slAppend gs minScore limit query) init,
            i.score = -(gs query i.w.word) := by
  intro ws
  induction ws with
  | nil => intro init hp hs; exact ⟨hp, hs⟩
  | cons w ws ih =>
    intro init hp hs
    rw [List.foldl_cons]
    apply ih
    · rw [slAppend]
      by_cases h : minScore ≤ gs query w.word
      · rw [if_pos h]
        exact (pairwise_scInsert query _ init hp).sublist (slTrim_sublist limit _)
      · rw [if_neg h]
        exact hp
    · rw [slAppend]
      by_cases h : minScore ≤ gs query w.word
      · rw [if_pos h]
        intro i hi
        have hi2 := (slTrim_sublist limit _).subset hi
        rcases (mem_scInsert query init _ i).mp hi2 with rfl | hiinit
        · rfl
        · exact hs i hiinit
      · rw [if_neg h]
        exact hs

/-- Claim C6: the CustomSortedList fuzzy strategy orders the surviving
candidates primarily by descending score and secondarily by ascending
absolute difference between candidate length and query length, for every
scorer, query and candidate list; and at the concrete instance of the
specification - scores 90, 90, 70 with lengths 5, 7, 5 against a
length-5 query - the output is the length-5 score-90 word, then the
length-7 score-90 word, then the length-5 score-70 word (shown for both
input orders of the two score-90 words). -/
theorem c6_fuzzy_ranking_order :
    (∀ (gs : List Char → List Char → Int) (query : List Char) (words : List Word),
      ((slExtend gs query 65 9 words).map RItem.w).Pairwise (fun w1 w2 =>
        gs query w2.word < gs query w1.word
        ∨ (gs query w1.word = gs query w2.word
            ∧ absDiffN query.length w1.word.length
                ≤ absDiffN query.length w2.word.length)))
    ∧ (slExtend gs6 q6 65 9 [wA, wB, wC]).map RItem.w = [wA, wB, wC]
    ∧ (slExtend gs6 q6 65 9 [wB, wA, wC]).map RItem.w = [wA, wB, wC] := by
  refine ⟨?_, by decide, by decide⟩
  intro gs query words
  obtain ⟨hp, hs⟩ := slExtend_aux gs query 65 9 words []
    (List.Pairwise.nil) (by intro i hi; simp at hi)
  rw [List.pairwise_map]
  refine List.Pairwise.imp_of_mem ?_ hp
  intro a b ha hb hk
  rw [keyLeB_iff] at hk
  simp only [keyOf] at hk
  rw [hs a ha, hs b hb] at hk
  rcases hk with hk | ⟨hk1, hk2⟩
  · left
    omega
  · right
    exact ⟨by omega, hk2⟩

/-- Helper: after a cache insertion the inserted key is present. -/
theorem pyLookup_cachePut_self {K V : Type} [DecidableEq K]
    (c : List (K × V)) (k : K) (v : V) : pyLookup (cachePut c k v) k = some v := by
  rw [cachePut, pyLookup_pyDictSet, if_pos rfl]

/-- Counterexample for claim C2: with the symspell strategy selected and
the matcher uninitialized (backing index never built), on_event renders
the empty result list - while the Weighted-Fuzzy-Score strategy over the
same non-indexed candidate list (word the, query teh, scorer 90) is
non-empty.  No StrategyUnavailableError is signalled and no fallback
happens: the code returns the empty result the claim rules out. -/
theorem c2_counterexample :
    (on_event gsConst90 c2state symPrefs (some ("teh".toList))).1 = []
    ∧ (slExtend gsConst90 ("teh".toList) 65 9
        (filter_words_by_first_char
          (filter_words_by_length c2state.word_list ("teh".toList) 2)
          ("teh".toList))).map RItem.w
      = [theEnglish] := by
  refine ⟨by decide, by decide⟩

/-- Claim C2 amended: when the symspell strategy is selected but its
matcher is uninitialized, SymSpellMatcher.search returns the empty list
and on_event (on a cache miss, for a non-empty query) renders an empty
result list - no error is signalled and no fallback to the fuzzy
strategy occurs. -/
theorem c2_symspell_unavailable_empty (gs : List Char → List Char → Int)
    (st : ExtState) (prefs : Prefs) (q : List Char)
    (hm : st.matcher.is_init = false)
    (hp : prefs.matching = "symspell".toList)
    (hq : q ≠ [])
    (hc : pyLookup st.search_cache (q, prefs.matching, prefs.vocabulary) = none) :
    symSearch st.matcher q 9 = []
    ∧ (on_event gs st prefs (some q)).1 = [] := by
  have hs : symSearch st.matcher q 9 = [] := by
    rw [symSearch, if_pos (Or.inl hm)]
  refine ⟨hs, ?_⟩
  have hregex : ¬ (prefs.matching = "regex".toList) := by
    rw [hp]
    decide
  rw [on_event, if_neg hq]
  simp only [hc, if_neg hregex, if_pos hp, hs, renderItems, List.take_nil,
    List.map_nil]

/-- Witness for the amended C2 at the concrete uninitialized state. -/
theorem c2_witness :
    symSearch c2state.matcher ("teh".toList) 9 = []
    ∧ (on_event gsConst90 c2state symPrefs (some ("teh".toList))).1 = [] :=
  c2_symspell_unavailable_empty gsConst90 c2state symPrefs ("teh".toList)
    rfl rfl (by decide) rfl

/-- Counterexample for claim C3: the single-space query is non-empty, so
Python truthiness sends it down the search path - on_event does not
render the prompt placeholder and it does interact with the cache (the
cache grows by the new key), unlike the empty query. -/
theorem c3_counterexample :
    (on_event gsConst90 c3state regexPrefs (some [' '])).1 ≠ [promptItem]
    ∧ (on_event gsConst90 c3state regexPrefs (some [' '])).2.search_cache
        ≠ c3state.search_cache := by
  refine ⟨by decide, by decide⟩

/-- Claim C3 amended: only an absent or empty-string query renders the
prompt placeholder and leaves the state untouched; a whitespace-only but
non-empty query is treated as an ordinary query - on a cache miss the
orchestrator runs the search and stores a cache entry under that query
(no error is raised either way: on_event is a total function of the
embedding). -/
theorem c3_whitespace_query_processed (gs : List Char → List Char → Int)
    (st : ExtState) (prefs : Prefs) (q : List Char)
    (hq : q ≠ []) (hw : ∀ c ∈ q, c.isWhitespace = true)
    (hc : pyLookup st.search_cache (q, prefs.matching, prefs.vocabulary) = none) :
    on_event gs st prefs none = ([promptItem], st)
    ∧ on_event gs st prefs (some []) = ([promptItem], st)
    ∧ (pyLookup (on_event gs st prefs (some q)).2.search_cache
        (q, prefs.matching, prefs.vocabulary)).isSome = true := by
  refine ⟨rfl, rfl, ?_⟩
  rw [on_event, if_neg hq]
  simp only [hc]
  rw [pyLookup_cachePut_self]
  rfl

/-- Witness for the amended C3 at the single-space query and an empty
initial cache. -/
theorem c3_witness :
    on_event gsConst90 c3state regexPrefs none = ([promptItem], c3state)
    ∧ on_event gsConst90 c3state regexPrefs (some []) = ([promptItem], c3state)
    ∧ (pyLookup (on_event gsConst90 c3state regexPrefs (some [' '])).2.search_cache
        ([' '], regexPrefs.matching, regexPrefs.vocabulary)).isSome = true :=
  c3_whitespace_query_processed gsConst90 c3state regexPrefs [' ']
    (by decide) (by decide) rfl
